import Mathlib

/-!
Verification development for the go-ipfs content re-announcement engine
(Tracker + Queue + Reprovider) and the peripheral `work` reporting command.

The repository ships the provider package's test surface and several
revisions of `core/commands/work.go`; the Tracker/Queue/Reprovider
implementation itself is not among the source files, so those components
are modelled from the specification (each such definition's doc comment
says so).  The `work` command's logic is embedded directly from
`src/core/commands/work.go` and the `WorkOutput`-with-deltas revision.
-/

/-- Content identifier.  The spec treats CIDs as opaque, immutable,
comparable/hashable values with byte-exact equality, so they are modelled
as an opaque countable type. -/
abbrev Cid := Nat

namespace Tracker

/-- Modelled from the spec: the Tracker implementation is absent from the
source tree (only its tests appear).  `Track(cid)` adds the CID to the
durable set; idempotent, so an already-tracked CID is left alone.  The
durable set is modelled as the list of CIDs in insertion order. -/
def Track (t : List Cid) (c : Cid) : List Cid :=
  if c ∈ t then t else t ++ [c]

/-- Modelled from the spec: `Untrack(cid)` removes the CID from the durable
set; removing an absent CID is a no-op, not an error (storage errors are
out of scope). -/
def Untrack (t : List Cid) (c : Cid) : List Cid :=
  t.filter (fun x => decide (x ≠ c))

/-- Modelled from the spec: `Tracked()` produces the current full snapshot
of tracked CIDs. -/
def Tracked (t : List Cid) : List Cid := t

end Tracker

namespace Queue

/-- Modelled from the spec: the Queue implementation is absent from the
source tree (only its tests appear).  `Enqueue(cid)` adds the CID to the
tail of the durable queue unless an entry for that CID is already pending
anywhere in the queue, in which case it is a no-op. -/
def Enqueue (q : List Cid) (c : Cid) : List Cid :=
  if c ∈ q then q else q ++ [c]

/-- Modelled from the spec: `Dequeue` returns the oldest available CID and
removes it from the durable backing store; on an empty queue the caller
blocks, modelled as `none`. -/
def Dequeue (q : List Cid) : Option (Cid × List Cid) :=
  match q with
  | [] => none
  | c :: rest => some (c, rest)

/-- Modelled from the spec: the sequence of CIDs obtained by repeatedly
calling `Dequeue` until the queue is empty (each step pops the head, as
`Dequeue` does). -/
def drain : List Cid → List Cid
  | [] => []
  | c :: rest => c :: drain rest

/-- Modelled from the spec: one sweep enqueues every CID of a snapshot into
the queue, in iteration order. -/
def EnqueueAll (q : List Cid) (ops : List Cid) : List Cid :=
  ops.foldl Enqueue q

end Queue

/-! ## FIFO ordering of first enqueues (C3) -/

/-- Entries a sequence of `Enqueue` calls appends to an existing queue `q`:
the CIDs of `ops` that are not already pending, kept in first-occurrence
order. -/
def newEntries (q : List Cid) : List Cid → List Cid
  | [] => []
  | c :: rest =>
    if c ∈ q then newEntries q rest else c :: newEntries (q ++ [c]) rest

/-! ## Reprovider model -/

namespace Reprovider

/-- Modelled from the spec: the Reprovider implementation is absent from
the source tree (only its tests appear).  One sweep — run periodically on
the `sweepInterval` timer and immediately on `Trigger` — reads the full
`Tracker.Tracked()` snapshot and calls `Queue.Enqueue` for every CID in
it. -/
def sweep (tracker queue : List Cid) : List Cid :=
  Queue.EnqueueAll queue (Tracker.Tracked tracker)

/-- Modelled from the spec: the worker loop repeatedly calls
`Queue.Dequeue`, checks `BlockPresence.Has`, silently drops absent CIDs,
and announces present ones.  `announced` accumulates the CIDs passed to
`ContentRouter.Announce`, in order; the result is the accumulator once the
queue has been fully drained. -/
def workerLoop (present : Cid → Bool) : List Cid → List Cid → List Cid
  | [], announced => announced
  | c :: rest, announced =>
    if present c then workerLoop present rest (announced ++ [c])
    else workerLoop present rest announced

/-- Modelled from the spec: the worker loop with a logical clock.  The
`drainInterval` parameter bounds how frequently announce calls are issued:
after each announce the worker waits `dI` time units before the next one.
Each announce is stamped with its issue time. -/
def timedWorker (present : Cid → Bool) (dI : Nat) :
    List Cid → Nat → List (Nat × Cid)
  | [], _ => []
  | c :: rest, now =>
    if present c then (now, c) :: timedWorker present dI rest (now + dI)
    else timedWorker present dI rest now

/-- Modelled from the spec: the worker loop when `ContentRouter.Announce`
may fail (`router c = true` means the announce call for `c` succeeded).
Returns `(succeeded, attempted)`: the CIDs whose announce succeeded and
every CID passed to `Announce`, in order.  A failed announce does not halt
the loop and the CID is not retried within the same cycle. -/
def workerLoopR (present router : Cid → Bool) : List Cid → List Cid × List Cid
  | [] => ([], [])
  | c :: rest =>
    if present c then
      let tail := workerLoopR present router rest
      if router c then (c :: tail.1, c :: tail.2) else (tail.1, c :: tail.2)
    else workerLoopR present router rest

end Reprovider

/-! ## Restart durability (C4) -/

/-- Modelled from the spec: the Queue's durable backing state.  `NewQueue`
binds the queue to a named region of the persistent store; each pending CID
is recorded there under a fresh monotonically increasing key, and only a
successful `Dequeue` removes a record.  `nextKey` is the in-memory key
counter; `entries` are the durable key→CID records in key order. -/
structure DurableQueue where
  nextKey : Nat
  entries : List (Nat × Cid)
deriving Repr, DecidableEq

namespace DurableQueue

/-- Modelled from the spec: `Enqueue` durably records the CID under a fresh
key unless an entry for it is already pending. -/
def Enqueue (q : DurableQueue) (c : Cid) : DurableQueue :=
  if c ∈ q.entries.map Prod.snd then q
  else ⟨q.nextKey + 1, q.entries ++ [(q.nextKey, c)]⟩

/-- Modelled from the spec: `Dequeue` returns the oldest pending CID and
removes its record from the durable store atomically with the return. -/
def Dequeue (q : DurableQueue) : Option (Cid × DurableQueue) :=
  match q.entries with
  | [] => none
  | (_, c) :: rest => some (c, ⟨q.nextKey, rest⟩)

/-- Modelled from the spec: a process restart loses all in-memory state;
`NewQueue` rebuilds the queue from the durable records alone, recomputing
the key counter from the keys found in the store. -/
def restart (q : DurableQueue) : DurableQueue :=
  ⟨q.entries.foldl (fun m kv => max m (kv.1 + 1)) 0, q.entries⟩

/-- Modelled from the spec: the CIDs obtained by repeatedly calling
`Dequeue` until empty (each step pops the oldest record, as `Dequeue`
does). -/
def drainAll (q : DurableQueue) : List Cid :=
  q.entries.map Prod.snd

end DurableQueue

/-! ## The `work` command, current revision (`src/core/commands/work.go`) -/

namespace Work

/-- Output tree node of the current `work.go` revision: `Children`,
`Name`, `Hash`, `Data`, `Size`, `IsLeaf`. -/
structure Node where
  Children : List Node
  Name : String
  Hash : String
  Data : String
  Size : Nat
  IsLeaf : Bool

/-- A freshly allocated `Node{Hash: h}`: every other field is Go's zero
value, exactly as the command builds root and child nodes before filling
them. -/
def emptyNode (hash : String) : Node :=
  { Children := [], Name := "", Hash := hash, Data := "", Size := 0,
    IsLeaf := false }

/-- External merkledag node as observed through `api.Object().Get`:
its links (child CID strings) and the result of `nd.Size()` (`none`
models that call returning an error). -/
structure ObjNode where
  links : List String
  size : Option Nat

/-- Embedding of `recursiveFillNode` from `src/core/commands/work.go`.
`objGet h` models `api.Object().Get` on path `h` (`none` = error), and
`objData h` models `api.Object().Data` plus `ioutil.ReadAll` (`none` =
error).  The returned `Bool` is `true` iff the Go function returns a
non-nil error.  The function sets `Children` by recursing into every link
— discarding the recursive call's error — then `Size`, then either marks
a leaf or reads `Data`.  `fuel` bounds the recursion depth (the Go code
recurses on an acyclic DAG); an exhausted budget is reported as an
error. -/
def recursiveFillNode (objGet : String → Option ObjNode)
    (objData : String → Option String) : Nat → Node → Node × Bool
  | 0, node => (node, true)
  | fuel + 1, node =>
    match objGet node.Hash with
    | none => (node, true)
    | some nd =>
      let node1 := { node with
        Children := nd.links.map
          (fun l => (recursiveFillNode objGet objData fuel (emptyNode l)).1) }
      match nd.size with
      | none => (node1, true)
      | some s =>
        let node2 := { node1 with Size := s }
        if nd.links.isEmpty then ({ node2 with IsLeaf := true }, false)
        else
          match objData node.Hash with
          | none => (node2, true)
          | some d => ({ node2 with Data := d }, false)

end Work

/-! ## The `work` command, `WorkOutput`-with-deltas revision -/

namespace WorkDeltas

/-- Output tree node of the deltas revision (`BlockNode` in the source):
`Hash`, `Size`, `BlockNodes`, `Data`. -/
structure BlockNode where
  Hash : String
  Size : Int
  BlockNodes : List BlockNode
  Data : String

/-- A freshly allocated `BlockNode{Hash: h}` with Go zero values. -/
def emptyBlockNode (hash : String) : BlockNode :=
  { Hash := hash, Size := 0, BlockNodes := [], Data := "" }

/-- Embedding of `recursiveFillNode` from the deltas revision (identical in
both source copies).  `resolvePath` models `api.ResolvePath`, `objLinks`
models `api.Object().Links` on the resolved path, `objData` models
`api.Object().Data` plus `ioutil.ReadAll`; `none` means the call errors.
The returned `Bool` is `true` iff the Go function returns a non-nil error.
A node with no links returns immediately; otherwise `Data` is read and
every link is recursed into with the recursive call's error discarded. -/
def recursiveFillNode (resolvePath : String → Option String)
    (objLinks : String → Option (List String))
    (objData : String → Option String) : Nat → BlockNode → BlockNode × Bool
  | 0, node => (node, true)
  | fuel + 1, node =>
    match resolvePath node.Hash with
    | none => (node, true)
    | some rp =>
      match objLinks rp with
      | none => (node, true)
      | some links =>
        if links.isEmpty then (node, false)
        else
          match objData node.Hash with
          | none => (node, true)
          | some d =>
            let node1 := { node with Data := d }
            let children := links.map (fun l =>
              (recursiveFillNode resolvePath objLinks objData fuel
                (emptyBlockNode l)).1)
            ({ node1 with BlockNodes := children }, false)

/-- Emitted output of the deltas revision's `work` command. -/
structure WorkOutput where
  RepoSize : Int
  DeltaRepoSize : Int
  SendDataSize : Int
  DeltaSendDataSize : Int
  FileRootNodes : List BlockNode
  WorkLoad : Int

/-- Embedding of the `Run` body's output section from the deltas revision
(identical in both source copies).  `repoSize` is `repoStat.RepoSize`,
`dataSent` is `bitswapStat.DataSent`, `fileRootNodes` the traversal
result, and `oldWorkOutput` the process-wide mutable previous-snapshot
variable, passed in and returned explicitly.  The first component is the
emitted `WorkOutput`; the second is the value of `oldWorkOutput` after the
invocation. -/
def runCmd (repoSize dataSent : Int) (fileRootNodes : List BlockNode)
    (oldWorkOutput : Option WorkOutput) : WorkOutput × Option WorkOutput :=
  match oldWorkOutput with
  | none =>
    let out : WorkOutput :=
      { RepoSize := repoSize, DeltaRepoSize := 0,
        SendDataSize := dataSent, DeltaSendDataSize := 0,
        FileRootNodes := fileRootNodes, WorkLoad := repoSize }
    (out, some out)
  | some old =>
    let out : WorkOutput :=
      { RepoSize := repoSize, DeltaRepoSize := repoSize - old.RepoSize,
        SendDataSize := dataSent,
        DeltaSendDataSize := dataSent - old.SendDataSize,
        FileRootNodes := fileRootNodes,
        WorkLoad := repoSize + 5 * ((repoSize - old.RepoSize)
          + (dataSent - old.SendDataSize)) }
    (out, some out)

end WorkDeltas

/-! ## Theorems -/

/-- One `drain` step agrees with one `Dequeue` call. -/
theorem Queue.drain_eq_dequeue (q : List Cid) :
    Queue.drain q = match Queue.Dequeue q with
                    | none => []
                    | some cr => cr.1 :: Queue.drain cr.2 := by
  cases q <;> rfl

@[simp] theorem Queue.drain_eq_id (q : List Cid) : Queue.drain q = q := by
  induction q with
  | nil => rfl
  | cons c rest ih => simp [Queue.drain, ih]

/-! ## Basic queue and tracker lemmas -/

theorem Queue.enqueue_mem_noop {q : List Cid} {c : Cid} (h : c ∈ q) :
    Queue.Enqueue q c = q := by
  simp [Queue.Enqueue, h]

theorem Queue.enqueue_not_mem {q : List Cid} {c : Cid} (h : c ∉ q) :
    Queue.Enqueue q c = q ++ [c] := by
  simp [Queue.Enqueue, h]

theorem Queue.mem_enqueue (q : List Cid) (c x : Cid) :
    x ∈ Queue.Enqueue q c ↔ x ∈ q ∨ x = c := by
  by_cases h : c ∈ q
  · simp only [Queue.enqueue_mem_noop h]
    constructor
    · exact Or.inl
    · rintro (hx | rfl) <;> [exact hx; exact h]
  · simp [Queue.enqueue_not_mem h]

theorem Queue.count_enqueue_enqueue (q : List Cid) (c : Cid)
    (h : q.count c ≤ 1) :
    (Queue.Enqueue (Queue.Enqueue q c) c).count c = 1 := by
  by_cases hc : c ∈ q
  · have h1 : 0 < q.count c := List.count_pos_iff.mpr hc
    rw [Queue.enqueue_mem_noop hc, Queue.enqueue_mem_noop hc]
    omega
  · have h0 : q.count c = 0 := List.count_eq_zero.mpr hc
    rw [Queue.enqueue_not_mem hc,
        Queue.enqueue_mem_noop (by simp : c ∈ q ++ [c])]
    simp [List.count_append, h0]

/-- **C2**: re-enqueuing a pending CID is a no-op — the second `Enqueue`
leaves the queue unchanged, and exactly one eventual `Dequeue` returns the
CID (never two), provided the queue respects the at-most-one-entry-per-CID
invariant. -/
theorem claim_C2_dedup_enqueue (q : List Cid) (c : Cid) (h : q.count c ≤ 1) :
    Queue.Enqueue (Queue.Enqueue q c) c = Queue.Enqueue q c ∧
    (Queue.drain (Queue.Enqueue (Queue.Enqueue q c) c)).count c = 1 := by
  refine ⟨?_, ?_⟩
  · by_cases hc : c ∈ q
    · rw [Queue.enqueue_mem_noop hc, Queue.enqueue_mem_noop hc]
    · rw [Queue.enqueue_not_mem hc,
          Queue.enqueue_mem_noop (by simp : c ∈ q ++ [c])]
  · rw [Queue.drain_eq_id]
    exact Queue.count_enqueue_enqueue q c h

theorem claim_C2_dedup_enqueue_witness :
    ([] : List Cid).count 0 ≤ 1 ∧
    (Queue.Enqueue (Queue.Enqueue [] 0) 0 = Queue.Enqueue [] 0 ∧
     (Queue.drain (Queue.Enqueue (Queue.Enqueue [] 0) 0)).count 0 = 1) :=
  ⟨by decide, claim_C2_dedup_enqueue [] 0 (by decide)⟩

/-- **C5**: tracking a CID twice leaves `Tracked()` with exactly one
instance of it (under the at-most-one invariant the set maintains), and
untracking an absent CID is a no-op. -/
theorem claim_C5_idempotent_tracking (t : List Cid) (c d : Cid)
    (hcount : t.count c ≤ 1) (hd : d ∉ t) :
    Tracker.Track (Tracker.Track t c) c = Tracker.Track t c ∧
    (Tracker.Tracked (Tracker.Track (Tracker.Track t c) c)).count c = 1 ∧
    Tracker.Untrack t d = t := by
  refine ⟨?_, ?_, ?_⟩
  · by_cases hc : c ∈ t
    · simp [Tracker.Track, hc]
    · simp [Tracker.Track, hc]
  · by_cases hc : c ∈ t
    · have h1 : 0 < t.count c := List.count_pos_iff.mpr hc
      simp only [Tracker.Track, if_pos hc, Tracker.Tracked]
      omega
    · have h0 : t.count c = 0 := List.count_eq_zero.mpr hc
      simp only [Tracker.Track, if_neg hc]
      simp [Tracker.Tracked, List.count_append, h0]
  · unfold Tracker.Untrack
    rw [List.filter_eq_self]
    intro x hx
    simp only [decide_eq_true_eq]
    rintro rfl
    exact hd hx

theorem claim_C5_idempotent_tracking_witness :
    ([1, 2] : List Cid).count 1 ≤ 1 ∧ (0 : Cid) ∉ ([1, 2] : List Cid) ∧
    (Tracker.Track (Tracker.Track [1, 2] 1) 1 = Tracker.Track [1, 2] 1 ∧
     (Tracker.Tracked (Tracker.Track (Tracker.Track [1, 2] 1) 1)).count 1 = 1 ∧
     Tracker.Untrack [1, 2] 0 = [1, 2]) :=
  ⟨by decide, by decide, claim_C5_idempotent_tracking [1, 2] 1 0 (by decide) (by decide)⟩

/-! ## Worker-loop lemmas -/

theorem Reprovider.workerLoop_eq_filter (present : Cid → Bool) :
    ∀ (q announced : List Cid),
      Reprovider.workerLoop present q announced = announced ++ q.filter present := by
  intro q
  induction q with
  | nil => intro announced; simp [Reprovider.workerLoop]
  | cons c rest ih =>
    intro announced
    by_cases hc : present c = true
    · simp [Reprovider.workerLoop, hc, ih, List.filter_cons]
    · have hc' : present c = false := by
        cases hcv : present c <;> simp_all
      simp [Reprovider.workerLoop, hc', ih, List.filter_cons]

theorem Queue.enqueueAll_of_nodup_disjoint :
    ∀ (ops q : List Cid), ops.Nodup → (∀ c ∈ ops, c ∉ q) →
      Queue.EnqueueAll q ops = q ++ ops := by
  intro ops
  induction ops with
  | nil => intro q _ _; simp [Queue.EnqueueAll]
  | cons c rest ih =>
    intro q hnd hdisj
    have hc : c ∉ q := hdisj c (by simp)
    have : Queue.EnqueueAll q (c :: rest) = Queue.EnqueueAll (q ++ [c]) rest := by
      simp [Queue.EnqueueAll, Queue.enqueue_not_mem hc]
    rw [this, ih (q ++ [c]) hnd.of_cons]
    · simp
    · intro x hx
      simp only [List.mem_append, List.mem_singleton]
      rintro (hxq | rfl)
      · exact hdisj x (by simp [hx]) hxq
      · exact (List.nodup_cons.mp hnd).1 hx

theorem Queue.mem_enqueueAll :
    ∀ (ops q : List Cid) (x : Cid),
      x ∈ Queue.EnqueueAll q ops ↔ x ∈ q ∨ x ∈ ops := by
  intro ops
  induction ops with
  | nil => intro q x; simp [Queue.EnqueueAll]
  | cons c rest ih =>
    intro q x
    have : Queue.EnqueueAll q (c :: rest) = Queue.EnqueueAll (Queue.Enqueue q c) rest := rfl
    rw [this, ih, Queue.mem_enqueue]
    simp only [List.mem_cons]
    tauto

/-- **C1**: with N distinct CIDs all tracked and present, a sweep (whether
from the periodic timer or an explicit `Trigger`) followed by the worker
draining the queue announces every tracked CID exactly once, and never
announces a CID outside the tracked set.  Real-time bounds (10 ms
intervals, 5 s window) are abstracted into completion of the drain. -/
theorem claim_C1_full_coverage (t : List Cid) (present : Cid → Bool)
    (ht : t.Nodup) (hp : ∀ c ∈ t, present c = true) :
    (∀ c ∈ t,
      (Reprovider.workerLoop present (Reprovider.sweep t []) []).count c = 1) ∧
    (∀ c, c ∈ Reprovider.workerLoop present (Reprovider.sweep t []) [] → c ∈ t) := by
  have hsweep : Reprovider.sweep t [] = t := by
    have := Queue.enqueueAll_of_nodup_disjoint t [] ht (by simp)
    simpa [Reprovider.sweep, Tracker.Tracked] using this
  have hrun : Reprovider.workerLoop present (Reprovider.sweep t []) [] = t := by
    rw [hsweep, Reprovider.workerLoop_eq_filter]
    simp only [List.nil_append]
    exact List.filter_eq_self.mpr hp
  rw [hrun]
  exact ⟨fun c hc => List.count_eq_one_of_mem ht hc, fun c hc => hc⟩

theorem claim_C1_full_coverage_witness :
    ([10, 11, 12] : List Cid).Nodup ∧
    ((∀ c ∈ ([10, 11, 12] : List Cid),
        (Reprovider.workerLoop (fun _ => true)
          (Reprovider.sweep [10, 11, 12] []) []).count c = 1) ∧
     (∀ c, c ∈ Reprovider.workerLoop (fun _ => true)
          (Reprovider.sweep [10, 11, 12] []) [] → c ∈ ([10, 11, 12] : List Cid))) :=
  ⟨by decide,
   claim_C1_full_coverage [10, 11, 12] (fun _ => true) (by decide)
     (fun c _ => rfl)⟩

theorem Queue.enqueueAll_eq_append_newEntries :
    ∀ (ops q : List Cid), Queue.EnqueueAll q ops = q ++ newEntries q ops := by
  intro ops
  induction ops with
  | nil => intro q; simp [Queue.EnqueueAll, newEntries]
  | cons c rest ih =>
    intro q
    have hstep : Queue.EnqueueAll q (c :: rest)
        = Queue.EnqueueAll (Queue.Enqueue q c) rest := rfl
    by_cases hc : c ∈ q
    · rw [hstep, Queue.enqueue_mem_noop hc, ih]
      simp [newEntries, hc]
    · rw [hstep, Queue.enqueue_not_mem hc, ih]
      simp [newEntries, hc]

theorem newEntries_indexOf_lt :
    ∀ (ops q : List Cid) (x y : Cid), x ∉ q → y ∉ q → x ∈ ops → x ≠ y →
      ops.indexOf x < ops.indexOf y →
      (newEntries q ops).indexOf x < (newEntries q ops).indexOf y := by
  intro ops
  induction ops with
  | nil => intro q x y _ _ hx; exact absurd hx (List.not_mem_nil x)
  | cons c rest ih =>
    intro q x y hxq hyq hx hxy hord
    by_cases hcq : c ∈ q
    · have hxc : c ≠ x := fun h => hxq (h ▸ hcq)
      have hyc : c ≠ y := fun h => hyq (h ▸ hcq)
      have hx' : x ∈ rest := by
        rcases List.mem_cons.mp hx with h | h
        · exact absurd h.symm hxc
        · exact h
      have hord' : rest.indexOf x < rest.indexOf y := by
        rw [List.indexOf_cons_ne rest hxc, List.indexOf_cons_ne rest hyc] at hord
        omega
      simpa [newEntries, hcq] using ih q x y hxq hyq hx' hxy hord'
    · by_cases hxc : x = c
      · subst hxc
        have hyc : x ≠ y := hxy
        simp only [newEntries, if_neg hcq]
        rw [List.indexOf_cons_self, List.indexOf_cons_ne _ hyc]
        exact Nat.succ_pos _
      · have hcx : c ≠ x := fun h => hxc h.symm
        have hyc : y ≠ c := by
          rintro rfl
          rw [List.indexOf_cons_self, List.indexOf_cons_ne rest hcx] at hord
          omega
        have hcy : c ≠ y := fun h => hyc h.symm
        have hx' : x ∈ rest := by
          rcases List.mem_cons.mp hx with h | h
          · exact absurd h hxc
          · exact h
        have hord' : rest.indexOf x < rest.indexOf y := by
          rw [List.indexOf_cons_ne rest hcx, List.indexOf_cons_ne rest hcy] at hord
          omega
        have hxq' : x ∉ q ++ [c] := by
          simp only [List.mem_append, List.mem_singleton]
          rintro (h | h) <;> [exact hxq h; exact hxc h]
        have hyq' : y ∉ q ++ [c] := by
          simp only [List.mem_append, List.mem_singleton]
          rintro (h | h) <;> [exact hyq h; exact hyc h]
        have := ih (q ++ [c]) x y hxq' hyq' hx' hxy hord'
        simp only [newEntries, if_neg hcq]
        rw [List.indexOf_cons_ne _ hcx, List.indexOf_cons_ne _ hcy]
        omega

/-- **C3**: FIFO delivery in first-enqueue order.  Re-enqueuing a pending
CID leaves the queue — hence every delivery position — unchanged, and for
any sequence `ops` of enqueued CIDs starting from an empty queue, `Dequeue`
delivers (`drain`) any two distinct CIDs in the order of their first
occurrence in `ops`. -/
theorem claim_C3_fifo_first_enqueue_order (q ops : List Cid) (c x y : Cid)
    (hc : c ∈ q) (hx : x ∈ ops) (hxy : x ≠ y)
    (hord : ops.indexOf x < ops.indexOf y) :
    Queue.Enqueue q c = q ∧
    (Queue.drain (Queue.EnqueueAll [] ops)).indexOf x
      < (Queue.drain (Queue.EnqueueAll [] ops)).indexOf y := by
  refine ⟨Queue.enqueue_mem_noop hc, ?_⟩
  rw [Queue.drain_eq_id, Queue.enqueueAll_eq_append_newEntries]
  simpa using
    newEntries_indexOf_lt ops [] x y (by simp) (by simp) hx hxy hord

theorem claim_C3_fifo_first_enqueue_order_witness :
    (5 : Cid) ∈ ([5] : List Cid) ∧ (1 : Cid) ∈ ([1, 2, 1] : List Cid) ∧
    (1 : Cid) ≠ 2 ∧
    ([1, 2, 1] : List Cid).indexOf 1 < ([1, 2, 1] : List Cid).indexOf 2 ∧
    (Queue.Enqueue [5] 5 = [5] ∧
     (Queue.drain (Queue.EnqueueAll [] [1, 2, 1])).indexOf 1
       < (Queue.drain (Queue.EnqueueAll [] [1, 2, 1])).indexOf 2) :=
  ⟨by decide, by decide, by decide, by decide,
   claim_C3_fifo_first_enqueue_order [5] [1, 2, 1] 5 1 2
     (by decide) (by decide) (by decide) (by decide)⟩

/-- **C6**: presence filtering.  A CID that is tracked and queued but for
which `BlockPresence.Has` reports false at dequeue time is never passed to
`Announce`; the worker drops it silently (the drain completes and delivers
exactly the present entries, with no error path). -/
theorem claim_C6_presence_filtering (present : Cid → Bool) (t q : List Cid)
    (c : Cid) (htrk : c ∈ t) (hq : c ∈ q) (habs : present c = false) :
    c ∉ Reprovider.workerLoop present q [] ∧
    Reprovider.workerLoop present q [] = q.filter present := by
  have heq : Reprovider.workerLoop present q [] = q.filter present := by
    rw [Reprovider.workerLoop_eq_filter]; simp
  refine ⟨?_, heq⟩
  rw [heq]
  intro hmem
  have := List.of_mem_filter hmem
  rw [habs] at this
  exact Bool.false_ne_true this

theorem claim_C6_presence_filtering_witness :
    (7 : Cid) ∈ ([7] : List Cid) ∧ (7 : Cid) ∈ ([3, 7, 4] : List Cid) ∧
    (fun x => decide (x ≠ 7) : Cid → Bool) 7 = false ∧
    ((7 : Cid) ∉ Reprovider.workerLoop (fun x => decide (x ≠ 7)) [3, 7, 4] [] ∧
     Reprovider.workerLoop (fun x => decide (x ≠ 7)) [3, 7, 4] []
       = ([3, 7, 4] : List Cid).filter (fun x => decide (x ≠ 7))) :=
  ⟨by decide, by decide, by decide,
   claim_C6_presence_filtering (fun x => decide (x ≠ 7)) [7] [3, 7, 4] 7
     (by decide) (by decide) (by decide)⟩

/-! ## Rate limiting (C7) -/

theorem Reprovider.timedWorker_time_le (present : Cid → Bool) (dI : Nat) :
    ∀ (q : List Cid) (now : Nat) (e : Nat × Cid),
      e ∈ Reprovider.timedWorker present dI q now → now ≤ e.1 := by
  intro q
  induction q with
  | nil => intro now e he; simp [Reprovider.timedWorker] at he
  | cons c rest ih =>
    intro now e he
    by_cases hc : present c = true
    · simp only [Reprovider.timedWorker, if_pos hc, List.mem_cons] at he
      rcases he with rfl | he
      · exact Nat.le_refl _
      · have := ih (now + dI) e he
        omega
    · have hc' : present c = false := by cases hcv : present c <;> simp_all
      simp only [Reprovider.timedWorker, hc', Bool.false_eq_true, if_false] at he
      exact ih now e he

/-- **C7**: rate limiting.  Consecutive announce calls issued by the worker
are spaced at least `drainInterval` apart on the logical clock, and no
present entry is dropped — entries arriving faster than the rate simply
wait in the queue and are all eventually announced. -/
theorem claim_C7_rate_limit (present : Cid → Bool) (dI : Nat) :
    ∀ (q : List Cid) (now : Nat),
      List.Chain' (fun a b => a.1 + dI ≤ b.1)
        (Reprovider.timedWorker present dI q now) ∧
      (∀ c ∈ q, present c = true →
        c ∈ (Reprovider.timedWorker present dI q now).map Prod.snd) := by
  intro q
  induction q with
  | nil =>
    intro now
    exact ⟨List.chain'_nil, fun c hc => absurd hc (List.not_mem_nil c)⟩
  | cons c rest ih =>
    intro now
    by_cases hc : present c = true
    · refine ⟨?_, ?_⟩
      · simp only [Reprovider.timedWorker, if_pos hc]
        rw [List.chain'_cons']
        refine ⟨?_, (ih (now + dI)).1⟩
        intro b hb
        have hbmem : b ∈ Reprovider.timedWorker present dI rest (now + dI) :=
          List.mem_of_mem_head? hb
        have := Reprovider.timedWorker_time_le present dI rest (now + dI) b hbmem
        omega
      · intro d hd hdp
        simp only [Reprovider.timedWorker, if_pos hc, List.map_cons]
        rcases List.mem_cons.mp hd with rfl | hd'
        · exact List.mem_cons_self _ _
        · exact List.mem_cons_of_mem _ ((ih (now + dI)).2 d hd' hdp)
    · have hc' : present c = false := by cases hcv : present c <;> simp_all
      refine ⟨?_, ?_⟩
      · simpa [Reprovider.timedWorker, hc'] using (ih now).1
      · intro d hd hdp
        rcases List.mem_cons.mp hd with rfl | hd'
        · rw [hdp] at hc'; exact absurd hc' (by simp)
        · simpa [Reprovider.timedWorker, hc'] using (ih now).2 d hd' hdp

theorem claim_C7_rate_limit_witness :
    List.Chain' (fun a b => a.1 + 3 ≤ b.1)
      (Reprovider.timedWorker (fun _ => true) 3 [1, 2, 4] 10) ∧
    (2 : Cid) ∈ (Reprovider.timedWorker (fun _ => true) 3 [1, 2, 4] 10).map Prod.snd :=
  ⟨(claim_C7_rate_limit (fun _ => true) 3 [1, 2, 4] 10).1,
   (claim_C7_rate_limit (fun _ => true) 3 [1, 2, 4] 10).2 2 (by decide) rfl⟩

/-! ## Announce-failure semantics (C8) -/

theorem Reprovider.workerLoopR_attempted (present router : Cid → Bool) :
    ∀ q : List Cid,
      (Reprovider.workerLoopR present router q).2 = q.filter present := by
  intro q
  induction q with
  | nil => simp [Reprovider.workerLoopR]
  | cons c rest ih =>
    by_cases hc : present c = true
    · by_cases hr : router c = true
      · simp [Reprovider.workerLoopR, hc, hr, ih, List.filter_cons]
      · have hr' : router c = false := by cases hrv : router c <;> simp_all
        simp [Reprovider.workerLoopR, hc, hr', ih, List.filter_cons]
    · have hc' : present c = false := by cases hcv : present c <;> simp_all
      simp [Reprovider.workerLoopR, hc', ih, List.filter_cons]

theorem Reprovider.workerLoopR_succeeded_router (present router : Cid → Bool) :
    ∀ (q : List Cid) (x : Cid),
      x ∈ (Reprovider.workerLoopR present router q).1 → router x = true := by
  intro q
  induction q with
  | nil => intro x hx; simp [Reprovider.workerLoopR] at hx
  | cons c rest ih =>
    intro x hx
    by_cases hc : present c = true
    · by_cases hr : router c = true
      · simp only [Reprovider.workerLoopR, if_pos hc, if_pos hr,
          List.mem_cons] at hx
        rcases hx with rfl | hx
        · exact hr
        · exact ih x hx
      · have hr' : router c = false := by cases hrv : router c <;> simp_all
        simp only [Reprovider.workerLoopR, if_pos hc, hr',
          Bool.false_eq_true, if_false] at hx
        exact ih x hx
    · have hc' : present c = false := by cases hcv : present c <;> simp_all
      simp only [Reprovider.workerLoopR, hc', Bool.false_eq_true, if_false] at hx
      exact ih x hx

/-- **C8**: a failed `Announce` does not halt the worker loop.  Every
present entry of the queue is passed to `Announce` exactly in queue order
regardless of failures (no halt, no in-cycle retry), a CID whose announce
failed is not among the successes, and — since the Tracker still holds
it — the next sweep re-enqueues it. -/
theorem claim_C8_announce_failure (present router : Cid → Bool)
    (q t : List Cid) (c : Cid) (hfail : router c = false) (htrk : c ∈ t) :
    (Reprovider.workerLoopR present router q).2 = q.filter present ∧
    c ∉ (Reprovider.workerLoopR present router q).1 ∧
    c ∈ Reprovider.sweep t [] := by
  refine ⟨Reprovider.workerLoopR_attempted present router q, ?_, ?_⟩
  · intro hmem
    have := Reprovider.workerLoopR_succeeded_router present router q c hmem
    rw [hfail] at this
    exact Bool.false_ne_true this
  · show c ∈ Queue.EnqueueAll [] (Tracker.Tracked t)
    rw [Queue.mem_enqueueAll]
    exact Or.inr htrk

theorem claim_C8_announce_failure_witness :
    (fun x => decide (x ≠ 2) : Cid → Bool) 2 = false ∧
    (2 : Cid) ∈ ([2, 9] : List Cid) ∧
    ((Reprovider.workerLoopR (fun _ => true) (fun x => decide (x ≠ 2)) [2, 5]).2
       = ([2, 5] : List Cid).filter (fun _ => true) ∧
     (2 : Cid) ∉ (Reprovider.workerLoopR (fun _ => true)
        (fun x => decide (x ≠ 2)) [2, 5]).1 ∧
     (2 : Cid) ∈ Reprovider.sweep [2, 9] []) :=
  ⟨by decide, by decide,
   claim_C8_announce_failure (fun _ => true) (fun x => decide (x ≠ 2))
     [2, 5] [2, 9] 2 (by decide) (by decide)⟩

/-- Draining the durable queue agrees with repeated `Dequeue`. -/
theorem DurableQueue.drainAll_eq_dequeue (q : DurableQueue) :
    DurableQueue.drainAll q
      = match DurableQueue.Dequeue q with
        | none => []
        | some cr => cr.1 :: DurableQueue.drainAll cr.2 := by
  rcases q with ⟨k, es⟩
  cases es with
  | nil => rfl
  | cons kv rest => rcases kv with ⟨_, c⟩; rfl

/-- **C4**: restart durability.  Every CID enqueued but not yet dequeued
before a restart is still delivered by `Dequeue` after the restart, each
exactly once (given the at-most-one-entry-per-CID invariant `Enqueue`
maintains), and the restarted queue delivers nothing that was not already
pending. -/
theorem claim_C4_restart_durability (q : DurableQueue)
    (hinv : (q.entries.map Prod.snd).Nodup) :
    (∀ c ∈ DurableQueue.drainAll q,
      (DurableQueue.drainAll (DurableQueue.restart q)).count c = 1) ∧
    (∀ c ∈ DurableQueue.drainAll (DurableQueue.restart q),
      c ∈ DurableQueue.drainAll q) := by
  have hsame : DurableQueue.drainAll (DurableQueue.restart q)
      = DurableQueue.drainAll q := rfl
  rw [hsame]
  exact ⟨fun c hc => List.count_eq_one_of_mem hinv hc, fun c hc => hc⟩

theorem claim_C4_restart_durability_witness :
    ((DurableQueue.mk 2 [(0, 4), (1, 6)]).entries.map Prod.snd).Nodup ∧
    ((∀ c ∈ DurableQueue.drainAll (DurableQueue.mk 2 [(0, 4), (1, 6)]),
       (DurableQueue.drainAll
         (DurableQueue.restart (DurableQueue.mk 2 [(0, 4), (1, 6)]))).count c = 1) ∧
     (∀ c ∈ DurableQueue.drainAll
         (DurableQueue.restart (DurableQueue.mk 2 [(0, 4), (1, 6)])),
       c ∈ DurableQueue.drainAll (DurableQueue.mk 2 [(0, 4), (1, 6)]))) :=
  ⟨by decide, claim_C4_restart_durability (DurableQueue.mk 2 [(0, 4), (1, 6)]) (by decide)⟩

/-- The dedup `Enqueue` preserves the at-most-one-entry-per-CID invariant
that `claim_C4_restart_durability` assumes, so the invariant holds for
every queue reachable from `NewQueue`'s empty state. -/
theorem DurableQueue.enqueue_preserves_nodup (q : DurableQueue) (c : Cid)
    (h : (q.entries.map Prod.snd).Nodup) :
    ((DurableQueue.Enqueue q c).entries.map Prod.snd).Nodup := by
  by_cases hc : c ∈ q.entries.map Prod.snd
  · simp only [DurableQueue.Enqueue, if_pos hc]
    exact h
  · simp only [DurableQueue.Enqueue, if_neg hc, List.map_append]
    simp only [List.map_cons, List.map_nil]
    rw [List.nodup_append]
    refine ⟨h, List.nodup_singleton _, ?_⟩
    intro x hx hx'
    simp only [List.mem_singleton] at hx'
    subst hx'
    exact hc hx

/-- A node whose own `Get` fails is returned unchanged together with an
error — in particular a child built as `Node{Hash: l}` keeps only its
`Hash` field. -/
theorem Work.recursiveFillNode_get_fail (objGet : String → Option Work.ObjNode)
    (objData : String → Option String) (fuel : Nat) (node : Work.Node)
    (h : objGet node.Hash = none) :
    Work.recursiveFillNode objGet objData fuel node = (node, true) := by
  cases fuel with
  | zero => rfl
  | succ m => simp [Work.recursiveFillNode, h]

/-- A node whose own `ResolvePath` fails is returned unchanged together
with an error — a child built as `BlockNode{Hash: l}` keeps only its
`Hash` field. -/
theorem WorkDeltas.recursiveFillNode_resolve_fail
    (resolvePath : String → Option String)
    (objLinks : String → Option (List String))
    (objData : String → Option String) (fuel : Nat)
    (node : WorkDeltas.BlockNode)
    (h : resolvePath node.Hash = none) :
    WorkDeltas.recursiveFillNode resolvePath objLinks objData fuel node
      = (node, true) := by
  cases fuel with
  | zero => rfl
  | succ m => simp [WorkDeltas.recursiveFillNode, h]

/-- **C10**: in the sourced variants of the `work` command's DAG traversal
(current `work.go` and the deltas revision's `recursiveFillNode`), the
error of the recursive call on a child is discarded: a child link whose
fetch fails stays in the output with only its `Hash` field populated, the
traversal continues over all sibling links, and the enclosing call still
reports success for the subtree. -/
theorem claim_C10_child_error_discarded
    (objGet : String → Option Work.ObjNode) (objData : String → Option String)
    (resolvePath : String → Option String)
    (objLinks : String → Option (List String))
    (objData2 : String → Option String)
    (fuel : Nat) (h : String) (nd : Work.ObjNode) (i : Nat) (l : String)
    (s : Nat) (d : String)
    (hget : objGet h = some nd) (hlink : nd.links[i]? = some l)
    (hchild : objGet l = none) (hsize : nd.size = some s)
    (hdata : objData h = some d)
    (h2 : String) (rp2 : String) (links2 : List String) (i2 : Nat)
    (l2 : String) (d2 : String)
    (hres2 : resolvePath h2 = some rp2) (hlinks2 : objLinks rp2 = some links2)
    (hlink2 : links2[i2]? = some l2) (hchild2 : resolvePath l2 = none)
    (hdata2 : objData2 h2 = some d2) :
    ((Work.recursiveFillNode objGet objData (fuel + 1)
        (Work.emptyNode h)).1.Children[i]? = some (Work.emptyNode l) ∧
     (Work.recursiveFillNode objGet objData (fuel + 1)
        (Work.emptyNode h)).1.Children.length = nd.links.length ∧
     (Work.recursiveFillNode objGet objData (fuel + 1)
        (Work.emptyNode h)).2 = false) ∧
    ((WorkDeltas.recursiveFillNode resolvePath objLinks objData2 (fuel + 1)
        (WorkDeltas.emptyBlockNode h2)).1.BlockNodes[i2]?
          = some (WorkDeltas.emptyBlockNode l2) ∧
     (WorkDeltas.recursiveFillNode resolvePath objLinks objData2 (fuel + 1)
        (WorkDeltas.emptyBlockNode h2)).1.BlockNodes.length = links2.length ∧
     (WorkDeltas.recursiveFillNode resolvePath objLinks objData2 (fuel + 1)
        (WorkDeltas.emptyBlockNode h2)).2 = false) := by
  have hne : nd.links.isEmpty = false := by
    cases hls : nd.links with
    | nil => rw [hls] at hlink; simp at hlink
    | cons a as => rfl
  have hne2 : links2.isEmpty = false := by
    cases hls : links2 with
    | nil => rw [hls] at hlink2; simp at hlink2
    | cons a as => rfl
  constructor
  · have hstep :
        Work.recursiveFillNode objGet objData (fuel + 1) (Work.emptyNode h)
          = ({ (Work.emptyNode h) with
                Children := nd.links.map (fun x =>
                  (Work.recursiveFillNode objGet objData fuel
                    (Work.emptyNode x)).1),
                Size := s,
                Data := d }, false) := by
      simp [Work.recursiveFillNode, Work.emptyNode, hget, hsize, hne, hdata]
    rw [hstep]
    refine ⟨?_, by simp, rfl⟩
    simp only [List.getElem?_map, hlink, Option.map_some']
    rw [Work.recursiveFillNode_get_fail objGet objData fuel
      (Work.emptyNode l) (by simpa [Work.emptyNode] using hchild)]
  · have hstep :
        WorkDeltas.recursiveFillNode resolvePath objLinks objData2 (fuel + 1)
          (WorkDeltas.emptyBlockNode h2)
          = ({ (WorkDeltas.emptyBlockNode h2) with
                Data := d2,
                BlockNodes := links2.map (fun x =>
                  (WorkDeltas.recursiveFillNode resolvePath objLinks objData2
                    fuel (WorkDeltas.emptyBlockNode x)).1) }, false) := by
      simp [WorkDeltas.recursiveFillNode, WorkDeltas.emptyBlockNode, hres2,
        hlinks2, hne2, hdata2]
    rw [hstep]
    refine ⟨?_, by simp, rfl⟩
    simp only [List.getElem?_map, hlink2, Option.map_some']
    rw [WorkDeltas.recursiveFillNode_resolve_fail resolvePath objLinks objData2
      fuel (WorkDeltas.emptyBlockNode l2)
      (by simpa [WorkDeltas.emptyBlockNode] using hchild2)]

/-- **C9, counterexample**: the claim asserts that because the previous
output lives in the process-wide `oldWorkOutput` variable, two runs on the
same inputs produce different outputs.  At repo size 100 and data sent 50
the second invocation's deltas against the stored snapshot are zero and
its `WorkLoad` is again `RepoSize`, so the two emitted outputs are equal —
refuting that conjunct. -/
theorem claim_C9_counterexample :
    (WorkDeltas.runCmd 100 50 []
      ((WorkDeltas.runCmd 100 50 [] none).2)).1
    = (WorkDeltas.runCmd 100 50 [] none).1 := rfl

/-- **C9, amended**: the command threads its previous output through the
process-wide `oldWorkOutput` variable.  The first invocation reports zero
deltas and `WorkLoad = RepoSize` and stores its output; a later invocation
computes its deltas against the stored previous output and overwrites it.
On identical node statistics those deltas are zero and `WorkLoad` again
equals `RepoSize`, so two runs on the same inputs emit equal outputs (the
hidden state changes, but to an equal value). -/
theorem claim_C9_global_snapshot_state (r d : Int)
    (roots : List WorkDeltas.BlockNode) (old : WorkDeltas.WorkOutput) :
    (WorkDeltas.runCmd r d roots none).1.DeltaRepoSize = 0 ∧
    (WorkDeltas.runCmd r d roots none).1.DeltaSendDataSize = 0 ∧
    (WorkDeltas.runCmd r d roots none).1.WorkLoad = r ∧
    (WorkDeltas.runCmd r d roots none).2
      = some (WorkDeltas.runCmd r d roots none).1 ∧
    (WorkDeltas.runCmd r d roots (some old)).1.DeltaRepoSize
      = r - old.RepoSize ∧
    (WorkDeltas.runCmd r d roots (some old)).1.DeltaSendDataSize
      = d - old.SendDataSize ∧
    (WorkDeltas.runCmd r d roots (some old)).1.WorkLoad
      = r + 5 * ((r - old.RepoSize) + (d - old.SendDataSize)) ∧
    (WorkDeltas.runCmd r d roots (some old)).2
      = some (WorkDeltas.runCmd r d roots (some old)).1 ∧
    (WorkDeltas.runCmd r d roots ((WorkDeltas.runCmd r d roots none).2)).1
      = (WorkDeltas.runCmd r d roots none).1 := by
  refine ⟨rfl, rfl, rfl, rfl, rfl, rfl, rfl, rfl, ?_⟩
  simp [WorkDeltas.runCmd]

theorem claim_C10_child_error_discarded_witness :
    (fun h => if h = "r" then some (Work.ObjNode.mk ["a", "b"] (some 9))
              else if h = "a" then some (Work.ObjNode.mk [] (some 1))
              else none : String → Option Work.ObjNode) "b" = none ∧
    (fun h => if h = "R" then some "R/resolved"
              else none : String → Option String) "A" = none ∧
    (((Work.recursiveFillNode
        (fun h => if h = "r" then some (Work.ObjNode.mk ["a", "b"] (some 9))
                  else if h = "a" then some (Work.ObjNode.mk [] (some 1))
                  else none)
        (fun h => if h = "r" then some "rootdata" else none)
        2 (Work.emptyNode "r")).1.Children[1]? = some (Work.emptyNode "b") ∧
      (Work.recursiveFillNode
        (fun h => if h = "r" then some (Work.ObjNode.mk ["a", "b"] (some 9))
                  else if h = "a" then some (Work.ObjNode.mk [] (some 1))
                  else none)
        (fun h => if h = "r" then some "rootdata" else none)
        2 (Work.emptyNode "r")).1.Children.length
        = (Work.ObjNode.mk ["a", "b"] (some 9)).links.length ∧
      (Work.recursiveFillNode
        (fun h => if h = "r" then some (Work.ObjNode.mk ["a", "b"] (some 9))
                  else if h = "a" then some (Work.ObjNode.mk [] (some 1))
                  else none)
        (fun h => if h = "r" then some "rootdata" else none)
        2 (Work.emptyNode "r")).2 = false) ∧
     ((WorkDeltas.recursiveFillNode
        (fun h => if h = "R" then some "R/resolved" else none)
        (fun p => if p = "R/resolved" then some ["A"] else none)
        (fun h => if h = "R" then some "Rdata" else none)
        2 (WorkDeltas.emptyBlockNode "R")).1.BlockNodes[0]?
          = some (WorkDeltas.emptyBlockNode "A") ∧
      (WorkDeltas.recursiveFillNode
        (fun h => if h = "R" then some "R/resolved" else none)
        (fun p => if p = "R/resolved" then some ["A"] else none)
        (fun h => if h = "R" then some "Rdata" else none)
        2 (WorkDeltas.emptyBlockNode "R")).1.BlockNodes.length
        = (["A"] : List String).length ∧
      (WorkDeltas.recursiveFillNode
        (fun h => if h = "R" then some "R/resolved" else none)
        (fun p => if p = "R/resolved" then some ["A"] else none)
        (fun h => if h = "R" then some "Rdata" else none)
        2 (WorkDeltas.emptyBlockNode "R")).2 = false)) :=
  ⟨rfl, rfl,
   claim_C10_child_error_discarded
     (fun h => if h = "r" then some (Work.ObjNode.mk ["a", "b"] (some 9))
               else if h = "a" then some (Work.ObjNode.mk [] (some 1))
               else none)
     (fun h => if h = "r" then some "rootdata" else none)
     (fun h => if h = "R" then some "R/resolved" else none)
     (fun p => if p = "R/resolved" then some ["A"] else none)
     (fun h => if h = "R" then some "Rdata" else none)
     1 "r" (Work.ObjNode.mk ["a", "b"] (some 9)) 1 "b" 9 "rootdata"
     rfl rfl rfl rfl rfl
     "R" "R/resolved" ["A"] 0 "A" "Rdata"
     rfl rfl rfl rfl rfl⟩
